import Mathlib

/-!
Shallow embedding of the EchoLayer scoring-and-reward core
(backend/src/services/rewards.rs, reward_service.rs, echo_engine.rs,
propagation.rs, backend/src/models/echo_index.rs,
backend/src/handlers/echo_index.rs), together with theorems settling the
specification claims about it.

Conventions of the embedding:
* `f64` values are modelled as exact rationals (`ℚ`); the decisive code
  paths of the claims use only ring operations and comparisons, which the
  idealized arithmetic tracks faithfully.  Where IEEE special values decide
  a claim (logarithm of zero), a dedicated type `FP` with signed infinities
  and NaN is used instead.
* `HashMap<String, V>` is modelled as an association list
  `List (String × V)` with unique keys (`Nodup` on the key column where a
  theorem needs it); `entry().or_insert_with(..)`, `get_mut`, `remove` are
  modelled by the helpers below.
* `Utc::now()` and freshly drawn UUIDs are nondeterministic inputs of the
  Rust code; they are passed to the embedded functions as explicit
  parameters (`now : ℚ` in hours, identifier strings / a stream of
  transaction-hash strings).
-/

namespace EchoLayer

/-- `HashMap::get` on an association list. -/
def lookupA (m : List (String × α)) (k : String) : Option α :=
  m.lookup k

/-- Mutation through `HashMap::get_mut`: rewrite the entry with key `k` in
place (no-op when the key is absent).  On lists whose key column is
`Nodup` — the invariant every `HashMap` guarantees — this touches exactly
the one entry of the map. -/
def setA (k : String) (f : α → α) (m : List (String × α)) : List (String × α) :=
  m.map fun p => if p.1 = k then (p.1, f p.2) else p

/-- `HashMap::entry(k).or_insert_with(|| d)` followed by applying the
mutation `f` to the (existing or just-inserted) value. -/
def upsertA (k : String) (d : α) (f : α → α) (m : List (String × α)) :
    List (String × α) :=
  if (m.lookup k).isSome then setA k f m else m ++ [(k, f d)]

/-- `HashMap::remove(k)` (the removed value is read separately via
`lookupA`). -/
def removeA (k : String) (m : List (String × α)) : List (String × α) :=
  m.filter fun p => p.1 != k

/-! ### services/rewards.rs — data model -/

/-- `enum RewardType` (rewards.rs). -/
inductive RewardType where
  | ContentCreation
  | QualityBonus
  | PropagationBonus
  | DiscoveryBonus
  | EngagementReward
  | EchoLoopParticipation
  | CommunityContribution
deriving DecidableEq, Repr

/-- `struct EchoDropReward` (rewards.rs). -/
structure EchoDropReward where
  id : String
  user_id : String
  content_id : String
  reward_type : RewardType
  amount : ℚ
  echo_index_contribution : ℚ
  timestamp : ℚ
  transaction_hash : Option String
deriving DecidableEq, Repr

/-- `struct RewardMultiplier` (rewards.rs). -/
structure RewardMultiplier where
  base_rate : ℚ
  quality_multiplier : ℚ
  propagation_multiplier : ℚ
  time_decay_factor : ℚ
  community_bonus : ℚ
deriving DecidableEq, Repr

/-- `impl Default for RewardMultiplier` (rewards.rs). -/
def RewardMultiplier.default : RewardMultiplier :=
  { base_rate := 1
    quality_multiplier := 3/2
    propagation_multiplier := 2
    time_decay_factor := 19/20
    community_bonus := 6/5 }

/-- `struct UserRewardStats` (rewards.rs). -/
structure UserRewardStats where
  total_earned : ℚ
  content_rewards : ℚ
  propagation_rewards : ℚ
  quality_bonuses : ℚ
  current_multiplier : ℚ
  rank : Nat
  reward_velocity : ℚ
deriving DecidableEq, Repr

/-- The freshly created stats record of `update_user_stats`'s
`or_insert_with` closure (rewards.rs). -/
def newUserStats : UserRewardStats :=
  { total_earned := 0
    content_rewards := 0
    propagation_rewards := 0
    quality_bonuses := 0
    current_multiplier := 1
    rank := 0
    reward_velocity := 0 }

/-- `struct RewardsService` (rewards.rs). -/
structure RewardsService where
  multipliers : RewardMultiplier
  pending_rewards : List (String × List EchoDropReward)
  processed_rewards : List (String × List EchoDropReward)
  user_stats : List (String × UserRewardStats)
  daily_pool : ℚ
  current_pool_remaining : ℚ
deriving DecidableEq, Repr

/-- `RewardsService::new` (rewards.rs). -/
def RewardsService.new (daily_pool : ℚ) : RewardsService :=
  { multipliers := RewardMultiplier.default
    pending_rewards := []
    processed_rewards := []
    user_stats := []
    daily_pool := daily_pool
    current_pool_remaining := daily_pool }

/-! ### services/rewards.rs — reward formulas -/

/-- `RewardsService::calculate_content_creation_reward` (rewards.rs). -/
def calculate_content_creation_reward (m : RewardMultiplier)
    (echo_index content_quality_score initial_engagement : ℚ) : ℚ :=
  let base_reward := echo_index * m.base_rate
  let quality_bonus :=
    if 7/10 < content_quality_score then base_reward * (m.quality_multiplier - 1)
    else 0
  let engagement_factor := min (initial_engagement * (1/10)) (1/2)
  (base_reward + quality_bonus) * (1 + engagement_factor)

/-- `RewardsService::calculate_propagation_reward` (rewards.rs). -/
def calculate_propagation_reward (m : RewardMultiplier)
    (original_echo_index propagation_weight user_influence loop_strength : ℚ) : ℚ :=
  let base_propagation_reward := original_echo_index * propagation_weight * (1/10)
  let influence_bonus := user_influence * (1/20)
  let loop_bonus :=
    if 1/2 < loop_strength then base_propagation_reward * (m.propagation_multiplier - 1)
    else 0
  base_propagation_reward + influence_bonus + loop_bonus

/-- `RewardsService::calculate_discovery_bonus` (rewards.rs).
`discovery_timing` is the caller-supplied timing factor (reward_service.rs
documents it as `0.0 = very late, 1.0 = very early`). -/
def calculate_discovery_bonus
    (discovered_content_echo_index discovery_timing discoverer_influence : ℚ) : ℚ :=
  let timing_bonus := max (1 - discovery_timing) 0
  let base_discovery_reward := discovered_content_echo_index * (1/20)
  let influence_factor := min (discoverer_influence * (1/10)) (3/10)
  base_discovery_reward * (1 + timing_bonus + influence_factor)

/-! ### services/rewards.rs — stateful ledger operations -/

/-- `RewardsService::calculate_reward_velocity` (rewards.rs): amounts of the
user's processed rewards from the last 24 hours, averaged per hour. -/
def calculate_reward_velocity (svc : RewardsService) (now : ℚ) (user_id : String) : ℚ :=
  let cutoff_time := now - 24
  let recent_rewards :=
    (((lookupA svc.processed_rewards user_id).getD []).filter
      fun r => cutoff_time ≤ r.timestamp).foldl (fun acc r => acc + r.amount) 0
  recent_rewards / 24

/-- `RewardsService::calculate_user_multiplier` (rewards.rs). -/
def calculate_user_multiplier (svc : RewardsService) (user_id : String) : ℚ :=
  match lookupA svc.user_stats user_id with
  | none => 1
  | some stats =>
    let m := svc.multipliers.base_rate
    let m := if stats.total_earned * (1/5) < stats.quality_bonuses then m + 1/5 else m
    let m := if stats.total_earned * (3/10) < stats.propagation_rewards then m + 3/10 else m
    let m := if (1/2 : ℚ) < stats.reward_velocity then m + 1/10 else m
    min m 3

/-- `RewardsService::update_user_stats` (rewards.rs): bump the totals and the
category buckets, then recompute velocity and multiplier on the updated
entry. -/
def update_user_stats (svc : RewardsService) (now : ℚ) (user_id : String)
    (amount : ℚ) (reward_type : RewardType) : RewardsService :=
  let s0 := (lookupA svc.user_stats user_id).getD newUserStats
  let s1 := { s0 with total_earned := s0.total_earned + amount }
  let s2 :=
    match reward_type with
    | .ContentCreation => { s1 with content_rewards := s1.content_rewards + amount }
    | .PropagationBonus | .EchoLoopParticipation =>
        { s1 with propagation_rewards := s1.propagation_rewards + amount }
    | .QualityBonus => { s1 with quality_bonuses := s1.quality_bonuses + amount }
    | _ => s1
  let s3 := { s2 with reward_velocity := calculate_reward_velocity svc now user_id }
  let svc3 := { svc with user_stats := upsertA user_id newUserStats (fun _ => s3) svc.user_stats }
  let s4 := { s3 with current_multiplier := calculate_user_multiplier svc3 user_id }
  { svc with user_stats := upsertA user_id newUserStats (fun _ => s4) svc.user_stats }

/-- `RewardsService::award_reward` (rewards.rs).  `now` and the fresh reward
id `rid` stand for `Utc::now()` and the drawn UUID. -/
def award_reward (svc : RewardsService) (now : ℚ) (rid : String)
    (user_id content_id : String) (reward_type : RewardType)
    (amount echo_index_contribution : ℚ) :
    RewardsService × Except String String :=
  if svc.current_pool_remaining < amount then
    (svc, .error "Daily reward pool exhausted")
  else
    let reward : EchoDropReward :=
      { id := rid
        user_id := user_id
        content_id := content_id
        reward_type := reward_type
        amount := amount
        echo_index_contribution := echo_index_contribution
        timestamp := now
        transaction_hash := none }
    let svc1 := { svc with
      pending_rewards := upsertA user_id [] (· ++ [reward]) svc.pending_rewards }
    let svc2 := update_user_stats svc1 now user_id amount reward_type
    ({ svc2 with current_pool_remaining := svc2.current_pool_remaining - amount },
     .ok rid)

/-- `RewardsService::process_pending_rewards` (rewards.rs).  `txs` models the
stream of freshly drawn transaction-hash strings. -/
def process_pending_rewards (svc : RewardsService) (txs : Nat → String)
    (user_id : String) : RewardsService × Except String (List EchoDropReward) :=
  let pending := (lookupA svc.pending_rewards user_id).getD []
  let svc0 := { svc with pending_rewards := removeA user_id svc.pending_rewards }
  if pending.isEmpty then (svc0, .ok [])
  else
    let processed := pending.enum.map fun p =>
      { p.2 with transaction_hash := some (txs p.1) }
    ({ svc0 with
        processed_rewards := upsertA user_id [] (· ++ processed) svc0.processed_rewards },
     .ok processed)

/-- The comparator of `calculate_leaderboard`'s `sort_by` call (rewards.rs):
entry `a` precedes entry `b` when `b`'s total earned is at most `a`'s, i.e.
descending order of `total_earned`.  Rust's `sort_by` is stable, as is
`List.mergeSort`. -/
def leaderboardLE (a b : String × UserRewardStats) : Bool :=
  decide (b.2.total_earned ≤ a.2.total_earned)

/-- The rank write of `calculate_leaderboard`'s update loop (rewards.rs):
`stats.rank = (rank + 1) as u32`. -/
def setRank (r : Nat) (s : UserRewardStats) : UserRewardStats :=
  { s with rank := r }

/-- `RewardsService::calculate_leaderboard` (rewards.rs): clone the stats
entries, sort the clones by `total_earned` descending (Rust's `sort_by` is
stable), store rank `i + 1` into the live stats of the user at sorted
position `i`, and return the sorted clones. -/
def calculate_leaderboard (svc : RewardsService) :
    RewardsService × List (String × UserRewardStats) :=
  let users := svc.user_stats
  let sorted := users.mergeSort leaderboardLE
  let stats2 := sorted.enum.foldl
    (fun st p => setA p.2.1 (setRank (p.1 + 1)) st)
    svc.user_stats
  ({ svc with user_stats := stats2 }, sorted)

/-- `RewardsService::reset_daily_pool` (rewards.rs). -/
def reset_daily_pool (svc : RewardsService) : RewardsService :=
  { svc with current_pool_remaining := svc.daily_pool }

/-! ### services/echo_engine.rs -/

/-- `struct EchoMetrics` (echo_engine.rs) — the four cached factor scores. -/
structure EngineEchoMetrics where
  organic_discovery_factor : ℚ
  attention_weight_ratio : ℚ
  temporal_persistence_metric : ℚ
  quality_factor : ℚ
deriving DecidableEq, Repr

/-- `struct EchoEngineConfig` (echo_engine.rs). -/
structure EchoEngineConfig where
  odf_weight : ℚ
  awr_weight : ℚ
  tpm_weight : ℚ
  qf_weight : ℚ
  decay_factor : ℚ
  boost_threshold : ℚ
deriving DecidableEq, Repr

/-- `impl Default for EchoEngineConfig` (echo_engine.rs). -/
def EchoEngineConfig.default : EchoEngineConfig :=
  { odf_weight := 3/10
    awr_weight := 1/4
    tpm_weight := 1/4
    qf_weight := 1/5
    decay_factor := 19/20
    boost_threshold := 4/5 }

/-- The weighted sum inside `EchoEngine::calculate_echo_index`
(echo_engine.rs, the `weighted_score` local). -/
def weighted_score (cfg : EchoEngineConfig) (m : EngineEchoMetrics) : ℚ :=
  m.organic_discovery_factor * cfg.odf_weight +
  m.attention_weight_ratio * cfg.awr_weight +
  m.temporal_persistence_metric * cfg.tpm_weight +
  m.quality_factor * cfg.qf_weight

/-- `EchoEngine::calculate_echo_index` (echo_engine.rs): the weighted sum,
multiplied by 1.2 when it exceeds the configured boost threshold. -/
def calculate_echo_index (cfg : EchoEngineConfig) (m : EngineEchoMetrics) : ℚ :=
  let ws := weighted_score cfg m
  if cfg.boost_threshold < ws then ws * (6/5) else ws

/-! ### models/echo_index.rs (the `EchoIndexCalculator` variant) -/

/-- `EchoIndexCalculator::calculate_overall_score` (models/echo_index.rs). -/
def calculate_overall_score (odf awr tpm qf : ℚ) : ℚ :=
  odf * (3/10) + awr * (1/4) + tpm * (1/4) + qf * (1/5)

/-! ### handlers/echo_index.rs -/

/-- `EchoIndexService::determine_tier` (handlers/echo_index.rs). -/
def determine_tier (score : ℚ) : String :=
  if 80 ≤ score then "Gold"
  else if 60 ≤ score then "Silver"
  else if 40 ≤ score then "Bronze"
  else "Basic"

/-! ### An idealized IEEE-754 value type

`echo_engine.rs` computes `(total_views as f64).ln() / 15.0` with no guard
for `total_views == 0`; since `f64::ln(0.0)` is negative infinity, settling
the zero-input claim requires special values.  `FP` carries NaN, the two
infinities and exact finite rationals, with the IEEE semantics of the
operations on the decisive code path (`ln`, `/`, `*`, `+`, and Rust's
NaN-ignoring `f64::min`). -/

inductive FP where
  | nan : FP
  | ninf : FP
  | pinf : FP
  | fin : ℚ → FP
deriving DecidableEq, Repr

namespace FP

/-- IEEE addition. -/
def add : FP → FP → FP
  | nan, _ => nan
  | _, nan => nan
  | ninf, pinf => nan
  | pinf, ninf => nan
  | ninf, _ => ninf
  | _, ninf => ninf
  | pinf, _ => pinf
  | _, pinf => pinf
  | fin a, fin b => fin (a + b)

/-- IEEE multiplication. -/
def mul : FP → FP → FP
  | nan, _ => nan
  | _, nan => nan
  | pinf, pinf => pinf
  | pinf, ninf => ninf
  | ninf, pinf => ninf
  | ninf, ninf => pinf
  | pinf, fin b => if b = 0 then nan else if 0 < b then pinf else ninf
  | ninf, fin b => if b = 0 then nan else if 0 < b then ninf else pinf
  | fin a, pinf => if a = 0 then nan else if 0 < a then pinf else ninf
  | fin a, ninf => if a = 0 then nan else if 0 < a then ninf else pinf
  | fin a, fin b => fin (a * b)

/-- IEEE division (signed zeroes are not tracked: a finite value divided by
an infinity is the single zero `fin 0`). -/
def div : FP → FP → FP
  | nan, _ => nan
  | _, nan => nan
  | pinf, pinf => nan
  | pinf, ninf => nan
  | ninf, pinf => nan
  | ninf, ninf => nan
  | pinf, fin b => if b < 0 then ninf else pinf
  | ninf, fin b => if b < 0 then pinf else ninf
  | fin _, pinf => fin 0
  | fin _, ninf => fin 0
  | fin a, fin b =>
      if b = 0 then (if a = 0 then nan else if 0 < a then pinf else ninf)
      else fin (a / b)

/-- Rust's `f64::min`: a NaN argument is ignored in favour of the other. -/
def fmin : FP → FP → FP
  | nan, y => y
  | x, nan => x
  | ninf, _ => ninf
  | _, ninf => ninf
  | pinf, y => y
  | x, pinf => x
  | fin a, fin b => fin (min a b)

/-- `f64::ln` applied to a `u32` cast: `ln 0 = -∞`; on positive integers the
(irrational) value is taken from the supplied oracle `lnPos`, which the
zero-input theorems quantify over. -/
def lnNat (lnPos : Nat → ℚ) : Nat → FP
  | 0 => ninf
  | Nat.succ n => fin (lnPos (Nat.succ n))

end FP

/-- `EchoEngine::calculate_awr` (echo_engine.rs), over `FP`.  The engagement
map's values arrive as the list of (finite) values of the `HashMap`. -/
def calculate_awr (lnPos : Nat → ℚ) (engagement_values : List ℚ)
    (view_time : ℚ) (total_views : Nat) : FP :=
  let engagement_score := (engagement_values.map FP.fin).foldl FP.add (FP.fin 0)
  let time_factor := FP.fmin (FP.div (FP.fin view_time) (FP.fin 60)) (FP.fin 1)
  let popularity_factor := FP.div (FP.lnNat lnPos total_views) (FP.fin 15)
  FP.fmin
    (FP.add
      (FP.add (FP.mul engagement_score (FP.fin (1/2)))
        (FP.mul time_factor (FP.fin (3/10))))
      (FP.mul (FP.fmin popularity_factor (FP.fin 1)) (FP.fin (1/5))))
    (FP.fin 1)

/-! ### services/propagation.rs -/

/-- `enum NodeType` (propagation.rs). -/
inductive NodeType where
  | User
  | Content
  | Platform
deriving DecidableEq, Repr

/-- `struct PropagationNode` (propagation.rs). -/
structure PropagationNode where
  id : String
  node_type : NodeType
  influence_weight : ℚ
  reach : Nat
  engagement_rate : ℚ
  timestamp : ℚ
deriving DecidableEq, Repr

/-- `struct PropagationPath` (propagation.rs). -/
structure PropagationPath where
  nodes : List PropagationNode
  total_weight : ℚ
  resonance_factor : ℚ
  decay_rate : ℚ
deriving DecidableEq, Repr

/-- `struct EchoLoop` (propagation.rs). -/
structure EchoLoop where
  id : String
  source_content_id : String
  propagation_paths : List PropagationPath
  total_resonance : ℚ
  loop_strength : ℚ
  created_at : ℚ
  last_updated : ℚ
deriving DecidableEq, Repr

/-- `struct PropagationService` (propagation.rs); `active_loops` keyed by
loop id. -/
structure PropagationService where
  active_loops : List (String × EchoLoop)
  max_loop_depth : Nat
  resonance_threshold : ℚ
  decay_factor : ℚ
deriving DecidableEq, Repr

/-- `PropagationService::apply_resonance_amplification` (propagation.rs):
one amplification pass over a loop whose total resonance exceeded the
threshold.  Each path's `total_weight` is multiplied by the raw
amplification factor, its `resonance_factor` by the factor capped at 1.5,
and the loop's `total_resonance` by the factor capped at 1.3. -/
def apply_resonance_amplification (resonance_threshold : ℚ) (echo_loop : EchoLoop) :
    EchoLoop :=
  let amplification_factor :=
    1 + (echo_loop.total_resonance - resonance_threshold) * (1/2)
  { echo_loop with
    propagation_paths := echo_loop.propagation_paths.map fun path =>
      { path with
        total_weight := path.total_weight * amplification_factor
        resonance_factor := path.resonance_factor * min amplification_factor (3/2) }
    total_resonance := echo_loop.total_resonance * min amplification_factor (13/10) }

/-- `PropagationService::cleanup_expired_loops` (propagation.rs): retain a
loop only when its last update is newer than the cutoff AND its strength is
above 0.1. -/
def cleanup_expired_loops (svc : PropagationService) (now : ℚ)
    (max_age_hours : ℤ) : PropagationService :=
  let cutoff_time := now - (max_age_hours : ℚ)
  { svc with
    active_loops := svc.active_loops.filter fun p =>
      decide (cutoff_time < p.2.last_updated) && decide ((1/10 : ℚ) < p.2.loop_strength) }

/-! ### services/reward_service.rs (the orchestrator) -/

/-- `struct PropagationData` (reward_service.rs). -/
structure PropagationData where
  original_creator_id : String
  propagation_weight : ℚ
  loop_strength : ℚ
  platform_amplification : ℚ
deriving DecidableEq, Repr

/-- `struct RewardService` (reward_service.rs): the orchestrator owning a
ledger, an engine configuration and the two caches. -/
structure RewardService where
  rewards_engine : RewardsService
  echo_engine : EchoEngineConfig
  user_engagement_cache : List (String × ℚ)
  content_metrics_cache : List (String × EngineEchoMetrics)
deriving DecidableEq, Repr

/-- `RewardService::process_content_propagation` (reward_service.rs): award
the propagation reward to the propagator, then — when the creator differs —
a 30% residual to the creator.  The second award's failure aborts with the
error while the first award's mutations stay in place. -/
def process_content_propagation (svc : RewardService) (now : ℚ)
    (rid1 rid2 : String) (propagator_user_id original_content_id : String)
    (propagation_data : PropagationData) :
    RewardService × Except String (List String) :=
  match lookupA svc.content_metrics_cache original_content_id with
  | none => (svc, .error "Original content metrics not found")
  | some original_metrics =>
    let original_echo_index := calculate_echo_index svc.echo_engine original_metrics
    let propagator_influence :=
      (lookupA svc.user_engagement_cache propagator_user_id).getD (1/2)
    let propagation_reward := calculate_propagation_reward
      svc.rewards_engine.multipliers original_echo_index
      propagation_data.propagation_weight propagator_influence
      propagation_data.loop_strength
    let r1 := award_reward svc.rewards_engine now rid1 propagator_user_id
      original_content_id RewardType.PropagationBonus propagation_reward
      (original_echo_index * propagation_data.propagation_weight)
    match r1.2 with
    | .error e => ({ svc with rewards_engine := r1.1 }, .error e)
    | .ok id1 =>
      if propagation_data.original_creator_id ≠ propagator_user_id then
        let creator_reward := propagation_reward * (3/10)
        let r2 := award_reward r1.1 now rid2 propagation_data.original_creator_id
          original_content_id RewardType.EchoLoopParticipation creator_reward
          (original_echo_index * (1/10))
        match r2.2 with
        | .error e => ({ svc with rewards_engine := r2.1 }, .error e)
        | .ok id2 => ({ svc with rewards_engine := r2.1 }, .ok [id1, id2])
      else
        ({ svc with rewards_engine := r1.1 }, .ok [id1])

/-! ### Concrete states used to instantiate the theorems -/

/-- A ledger whose pool has 5 units remaining (Scenario C of the spec). -/
def scenarioCSvc : RewardsService := RewardsService.new 5

/-- A loop whose total resonance (2) is far above the default threshold
(0.3), holding one path of weight 1 and resonance factor 1. -/
def highResonanceLoop : EchoLoop :=
  { id := "loop_1"
    source_content_id := "content_1"
    propagation_paths :=
      [{ nodes := [], total_weight := 1, resonance_factor := 1, decay_rate := 9/10 }]
    total_resonance := 2
    loop_strength := 1/2
    created_at := 0
    last_updated := 0 }

/-- A tracker holding a single stale (last update at hour 0) but strong
(strength 0.9) loop. -/
def staleStrongSvc : PropagationService :=
  { active_loops :=
      [("loop_1",
        { id := "loop_1"
          source_content_id := "content_1"
          propagation_paths := []
          total_resonance := 0
          loop_strength := 9/10
          created_at := 0
          last_updated := 0 })]
    max_loop_depth := 10
    resonance_threshold := 3/10
    decay_factor := 9/10 }

/-- A ledger with two users ("a" earned 5, "b" earned 10), both still at the
initial rank 0. -/
def twoUserSvc : RewardsService :=
  { RewardsService.new 100 with
    user_stats :=
      [("a", { newUserStats with total_earned := 5 }),
       ("b", { newUserStats with total_earned := 10 })] }

/-- An orchestrator whose pool has 0.15 remaining and whose cache scores
content "cid" at echo index 1.2: the propagator's reward (0.145) fits the
pool but the 30% creator residual (0.0435) does not. -/
def almostExhaustedSvc : RewardService :=
  { rewards_engine := RewardsService.new (3/20)
    echo_engine := EchoEngineConfig.default
    user_engagement_cache := []
    content_metrics_cache :=
      [("cid",
        { organic_discovery_factor := 1
          attention_weight_ratio := 1
          temporal_persistence_metric := 1
          quality_factor := 1 })] }

/-- The propagation event driving `almostExhaustedSvc`: a distinct creator,
weight 1, no loop bonus. -/
def almostExhaustedData : PropagationData :=
  { original_creator_id := "creator"
    propagation_weight := 1
    loop_strength := 0
    platform_amplification := 0 }

/-! ## Theorems -/

/-! ### Association-list lemmas shared by the ledger theorems -/

theorem lookup_setA (k k' : String) (f : α → α) (m : List (String × α)) :
    (setA k f m).lookup k' =
      if k' = k then (m.lookup k').map f else m.lookup k' := by
  induction m with
  | nil => simp [setA]
  | cons p t ih =>
    obtain ⟨k0, v⟩ := p
    by_cases h0 : k0 = k
    · subst h0
      by_cases h' : k' = k0
      · subst h'
        simp_all [setA, List.lookup_cons]
      · have h'2 : ¬(k0 = k') := fun he => h' he.symm
        simp_all [setA, List.lookup_cons, beq_eq_decide]
    · have h02 : ¬(k = k0) := fun he => h0 he.symm
      by_cases h' : k' = k0
      · subst h'
        simp_all [setA, List.lookup_cons, beq_eq_decide]
      · simp_all [setA, List.lookup_cons, beq_eq_decide]

theorem lookup_removeA (k k' : String) (m : List (String × α)) :
    (removeA k m).lookup k' = if k' = k then none else m.lookup k' := by
  induction m with
  | nil => simp [removeA]
  | cons p t ih =>
    obtain ⟨k0, v⟩ := p
    unfold removeA at ih ⊢
    by_cases h0 : k0 = k
    · subst h0
      rw [List.filter_cons_of_neg (by simp)]
      rw [ih]
      by_cases h' : k' = k0
      · subst h'; simp
      · simp [h', List.lookup_cons, beq_eq_decide]
    · rw [List.filter_cons_of_pos (by simp [h0])]
      by_cases h' : k' = k0
      · subst h'
        simp [List.lookup_cons, h0]
      · simp [List.lookup_cons, beq_eq_decide, h', ih]

theorem lookup_upsertA (k k' : String) (d : α) (f : α → α) (m : List (String × α)) :
    (upsertA k d f m).lookup k' =
      if k' = k then some (f ((m.lookup k).getD d)) else m.lookup k' := by
  unfold upsertA
  by_cases hk : (m.lookup k).isSome
  · obtain ⟨v, hv⟩ := Option.isSome_iff_exists.mp hk
    by_cases h' : k' = k <;> simp_all [lookup_setA]
  · rw [Option.not_isSome_iff_eq_none] at hk
    simp only [hk, Option.isSome_none, Bool.false_eq_true, if_false, Option.getD_none]
    by_cases h' : k' = k
    · subst h'
      simp [List.lookup_append, hk]
    · simp [List.lookup_append, List.lookup_cons, beq_eq_decide, h']

theorem removeA_of_lookup_none (k : String) (m : List (String × α))
    (h : m.lookup k = none) : removeA k m = m := by
  rw [List.lookup_eq_none_iff] at h
  unfold removeA
  rw [List.filter_eq_self.mpr]
  intro p hp
  exact bne_iff_ne.mpr (Ne.symm (bne_iff_ne.mp (h p hp)))

/-- C8: tier assignment is a step function of the composite score — a score
is mapped to Gold exactly when it is ≥ 80, to Silver exactly on [60, 80),
to Bronze exactly on [40, 60), and to Basic exactly below 40. -/
theorem tier_assignment_step_function (score : ℚ) :
    (determine_tier score = "Gold" ↔ 80 ≤ score) ∧
    (determine_tier score = "Silver" ↔ 60 ≤ score ∧ score < 80) ∧
    (determine_tier score = "Bronze" ↔ 40 ≤ score ∧ score < 60) ∧
    (determine_tier score = "Basic" ↔ score < 40) := by
  unfold determine_tier
  split_ifs with h1 h2 h3 <;> simp_all <;>
    first
      | linarith
      | (intro _; linarith)
      | (constructor <;> first | linarith | (intro _; linarith) | (constructor <;> linarith))

/-- C6: evaluating `calculate_discovery_bonus` at the failing input.  For a
fixed score of 100 and influence 0.5, a discovery with timing factor 1.0
(documented in `DiscoveryData` as "very early") earns 21/4 = 5.25, while
timing factor 0.0 ("very late") earns 41/4 = 10.25: the code pays strictly
more for the later discovery, contradicting both the claim and the code's
own comments ("Earlier discovery = higher bonus"). -/
theorem discovery_bonus_favours_late_discovery :
    calculate_discovery_bonus 100 1 (1/2) = 21/4 ∧
    calculate_discovery_bonus 100 0 (1/2) = 41/4 ∧
    calculate_discovery_bonus 100 1 (1/2) < calculate_discovery_bonus 100 0 (1/2) := by
  norm_num [calculate_discovery_bonus]

/-- C5: evaluating `calculate_awr` at the failing input.  With an empty
engagement map, zero view time and zero total views the engine computes
`ln(0) / 15`, and the result is negative infinity — not the exactly-0
default the claim requires — whatever finite values the logarithm takes on
positive inputs. -/
theorem awr_zero_views_negative_infinity :
    ∀ lnPos : Nat → ℚ,
      calculate_awr lnPos [] 0 0 = FP.ninf ∧ FP.ninf ≠ FP.fin 0 := by
  intro lnPos
  constructor
  · norm_num [calculate_awr, FP.add, FP.mul, FP.div, FP.fmin, FP.lnNat]
  · intro h; cases h

/-- C3 counterexample: at factor scores (1, 1, 1, 1) the weighted sum is
exactly 1, but `EchoEngine::calculate_echo_index` returns 6/5 — the code
multiplies by 1.2 whenever the weighted sum exceeds the default boost
threshold 0.8, so the composite is not always the bare weighted sum. -/
theorem echo_index_boost_counterexample :
    weighted_score EchoEngineConfig.default
        { organic_discovery_factor := 1, attention_weight_ratio := 1,
          temporal_persistence_metric := 1, quality_factor := 1 } = 1 ∧
    calculate_echo_index EchoEngineConfig.default
        { organic_discovery_factor := 1, attention_weight_ratio := 1,
          temporal_persistence_metric := 1, quality_factor := 1 } = 6/5 ∧
    (6/5 : ℚ) ≠ 1 := by
  norm_num [calculate_echo_index, weighted_score, EchoEngineConfig.default]

/-- C3 amended: the models-layer `calculate_overall_score` is exactly the
0.30/0.25/0.25/0.20 weighted sum; those weights sum to 1, as do the engine's
default weights; and the engine's composite equals the weighted sum whenever
that sum is at most the boost threshold 0.8, but is the weighted sum times
1.2 above it. -/
theorem echo_index_weighted_sum_amended :
    (∀ odf awr tpm qf : ℚ, calculate_overall_score odf awr tpm qf =
        odf * (3/10) + awr * (1/4) + tpm * (1/4) + qf * (1/5)) ∧
    ((3 : ℚ)/10 + 1/4 + 1/4 + 1/5 = 1) ∧
    (EchoEngineConfig.default.odf_weight + EchoEngineConfig.default.awr_weight +
      EchoEngineConfig.default.tpm_weight + EchoEngineConfig.default.qf_weight = 1) ∧
    (∀ m : EngineEchoMetrics,
      weighted_score EchoEngineConfig.default m ≤ 4/5 →
        calculate_echo_index EchoEngineConfig.default m =
          m.organic_discovery_factor * (3/10) + m.attention_weight_ratio * (1/4) +
          m.temporal_persistence_metric * (1/4) + m.quality_factor * (1/5)) ∧
    (∀ m : EngineEchoMetrics,
      4/5 < weighted_score EchoEngineConfig.default m →
        calculate_echo_index EchoEngineConfig.default m =
          (m.organic_discovery_factor * (3/10) + m.attention_weight_ratio * (1/4) +
           m.temporal_persistence_metric * (1/4) + m.quality_factor * (1/5)) * (6/5)) := by
  refine ⟨fun odf awr tpm qf => rfl, by norm_num, by norm_num [EchoEngineConfig.default], ?_, ?_⟩
  · intro m h
    rw [calculate_echo_index,
      if_neg (by rw [show EchoEngineConfig.default.boost_threshold = 4/5 from rfl]
                 exact not_lt.mpr h)]
    simp [weighted_score, EchoEngineConfig.default]
  · intro m h
    rw [calculate_echo_index,
      if_pos (by rw [show EchoEngineConfig.default.boost_threshold = 4/5 from rfl]; exact h)]
    simp [weighted_score, EchoEngineConfig.default]

/-- C3 witness: instantiating the amended theorem's no-boost branch at
factor scores (1, 0, 0, 0), whose weighted sum 3/10 is below the
threshold. -/
theorem echo_index_weighted_sum_amended_witness :
    weighted_score EchoEngineConfig.default
        { organic_discovery_factor := 1, attention_weight_ratio := 0,
          temporal_persistence_metric := 0, quality_factor := 0 } ≤ 4/5 ∧
    calculate_echo_index EchoEngineConfig.default
        { organic_discovery_factor := 1, attention_weight_ratio := 0,
          temporal_persistence_metric := 0, quality_factor := 0 } =
      (1 : ℚ) * (3/10) + 0 * (1/4) + 0 * (1/4) + 0 * (1/5) :=
  ⟨by norm_num [weighted_score, EchoEngineConfig.default],
   echo_index_weighted_sum_amended.2.2.2.1
     { organic_discovery_factor := 1, attention_weight_ratio := 0,
       temporal_persistence_metric := 0, quality_factor := 0 }
     (by norm_num [weighted_score, EchoEngineConfig.default])⟩

/-- C4 counterexample: amplifying `highResonanceLoop` (total resonance 2
against threshold 0.3 gives amplification factor 1.85) multiplies the
path's weight by 1.85, taking it from 1 to 37/20 — strictly beyond the
1.5-capped value the claim allows for a path's weight.  Only the
resonance-factor and loop-total multipliers are capped in the code. -/
theorem amplification_uncapped_weight_counterexample :
    (apply_resonance_amplification (3/10) highResonanceLoop).propagation_paths.map
        (fun p => p.total_weight) = [37/20] ∧
    highResonanceLoop.propagation_paths.map (fun p => p.total_weight) = [1] ∧
    (3/2 : ℚ) * 1 < 37/20 := by
  norm_num [apply_resonance_amplification, highResonanceLoop]

/-- C4 amended: in one amplification pass each path's resonance factor is
multiplied by the amplification factor capped at 1.5, the loop's total
resonance by the factor capped at 1.3 — and each path's weight by the raw,
uncapped amplification factor. -/
theorem amplification_caps_amended (thr : ℚ) (l : EchoLoop) :
    ((apply_resonance_amplification thr l).propagation_paths.map (fun p => p.resonance_factor) =
      l.propagation_paths.map
        (fun p => p.resonance_factor * min (1 + (l.total_resonance - thr) * (1/2)) (3/2))) ∧
    min (1 + (l.total_resonance - thr) * (1/2)) (3/2) ≤ 3/2 ∧
    ((apply_resonance_amplification thr l).total_resonance =
      l.total_resonance * min (1 + (l.total_resonance - thr) * (1/2)) (13/10)) ∧
    min (1 + (l.total_resonance - thr) * (1/2)) (13/10) ≤ 13/10 ∧
    ((apply_resonance_amplification thr l).propagation_paths.map (fun p => p.total_weight) =
      l.propagation_paths.map (fun p => p.total_weight * (1 + (l.total_resonance - thr) * (1/2)))) := by
  refine ⟨?_, min_le_right _ _, rfl, min_le_right _ _, ?_⟩ <;>
    simp [apply_resonance_amplification, List.map_map] <;> rfl

/-- C2 counterexample: `staleStrongSvc` holds one loop that is stale (last
updated at hour 0, far older than the cutoff 100 − 24 = 76) but strong
(strength 0.9, well above the 0.1 floor).  The claim says such a loop
survives cleanup; the code removes it, because retention requires fresh AND
strong. -/
theorem cleanup_stale_strong_counterexample :
    (cleanup_expired_loops staleStrongSvc 100 24).active_loops = [] ∧
    staleStrongSvc.active_loops.map (fun p => (p.2.last_updated, p.2.loop_strength)) =
      [(0, 9/10)] ∧
    (0 : ℚ) ≤ 100 - (24 : ℤ) ∧ (1/10 : ℚ) < 9/10 := by
  refine ⟨?_, rfl, by norm_num, by norm_num⟩
  norm_num [cleanup_expired_loops, staleStrongSvc, List.filter]

/-- C2 amended: cleanup retains exactly the loops that are both fresh (last
update newer than the cutoff) and strong (strength above 0.1); equivalently
a loop is removed when it is stale OR weak, so neither a stale-but-strong
nor a fresh-but-weak loop survives. -/
theorem cleanup_retains_fresh_and_strong (svc : PropagationService) (now : ℚ)
    (max_age_hours : ℤ) (p : String × EchoLoop) :
    p ∈ (cleanup_expired_loops svc now max_age_hours).active_loops ↔
      p ∈ svc.active_loops ∧
        now - (max_age_hours : ℚ) < p.2.last_updated ∧ (1/10 : ℚ) < p.2.loop_strength := by
  simp [cleanup_expired_loops, List.mem_filter, and_assoc]


/-- C1: `award_reward` pool discipline.  Starting from a non-negative pool:
a request exceeding the remaining balance fails with the pool-exhausted
error and leaves the whole service state — pending records, user stats,
remaining balance — unchanged; otherwise the call succeeds, appends the
reward to the user's pending collection as an unsettled record
(`transaction_hash = none`), and decrements the remaining balance by
exactly the amount; and in all cases the remaining balance stays
non-negative. -/
theorem award_reward_pool_discipline (svc : RewardsService) (now : ℚ)
    (rid user_id content_id : String) (rt : RewardType) (amount contrib : ℚ)
    (hpool : 0 ≤ svc.current_pool_remaining) :
    (svc.current_pool_remaining < amount →
      award_reward svc now rid user_id content_id rt amount contrib =
        (svc, Except.error "Daily reward pool exhausted")) ∧
    (amount ≤ svc.current_pool_remaining →
      (award_reward svc now rid user_id content_id rt amount contrib).2 = Except.ok rid ∧
      (award_reward svc now rid user_id content_id rt amount contrib).1.current_pool_remaining =
        svc.current_pool_remaining - amount ∧
      lookupA (award_reward svc now rid user_id content_id rt amount contrib).1.pending_rewards
          user_id =
        some (((lookupA svc.pending_rewards user_id).getD []) ++
          [{ id := rid, user_id := user_id, content_id := content_id, reward_type := rt,
             amount := amount, echo_index_contribution := contrib, timestamp := now,
             transaction_hash := none }])) ∧
    0 ≤ (award_reward svc now rid user_id content_id rt amount contrib).1.current_pool_remaining := by
  by_cases h : svc.current_pool_remaining < amount
  · refine ⟨fun _ => ?_, fun h2 => absurd h (not_lt.mpr h2), ?_⟩
    · simp [award_reward, h]
    · simp [award_reward, h]
      exact hpool
  · push_neg at h
    have hne := not_lt.mpr h
    refine ⟨fun hlt => absurd hlt hne, fun _ => ⟨?_, ?_, ?_⟩, ?_⟩
    · simp [award_reward, hne]
    · simp [award_reward, hne, update_user_stats]
    · simp only [award_reward, hne, if_false, if_neg hne]
      simp [update_user_stats, lookupA, lookup_upsertA]
    · simp [award_reward, hne, update_user_stats]
      linarith

/-- C1 witness (Scenario C of the spec): a 10-unit award against a pool
with 5 remaining fails with the pool-exhausted error and changes
nothing. -/
theorem award_reward_pool_discipline_witness :
    (0 : ℚ) ≤ scenarioCSvc.current_pool_remaining ∧
    scenarioCSvc.current_pool_remaining < 10 ∧
    award_reward scenarioCSvc 0 "rid" "user" "content" RewardType.PropagationBonus 10 0 =
      (scenarioCSvc, Except.error "Daily reward pool exhausted") :=
  ⟨by norm_num [scenarioCSvc, RewardsService.new],
   by norm_num [scenarioCSvc, RewardsService.new],
   (award_reward_pool_discipline scenarioCSvc 0 "rid" "user" "content"
       RewardType.PropagationBonus 10 0
       (by norm_num [scenarioCSvc, RewardsService.new])).1
     (by norm_num [scenarioCSvc, RewardsService.new])⟩

/-- C9: flushing pending rewards.  `process_pending_rewards` returns
exactly the user's pending records stamped in order with fresh settlement
references, empties that user's pending collection while leaving every
other user's pending records alone, appends the stamped batch to the
user's processed collection, stamps every returned record
(`transaction_hash` set), and — when the user had no pending entry —
returns an empty batch without error and leaves the state unchanged. -/
theorem flush_moves_pending_to_processed (svc : RewardsService) (txs : Nat → String)
    (user_id : String) :
    (process_pending_rewards svc txs user_id).2 =
      Except.ok (((lookupA svc.pending_rewards user_id).getD []).enum.map fun p =>
        { p.2 with transaction_hash := some (txs p.1) }) ∧
    lookupA (process_pending_rewards svc txs user_id).1.pending_rewards user_id = none ∧
    (∀ v, v ≠ user_id →
      lookupA (process_pending_rewards svc txs user_id).1.pending_rewards v =
        lookupA svc.pending_rewards v) ∧
    (lookupA (process_pending_rewards svc txs user_id).1.processed_rewards user_id).getD [] =
      (lookupA svc.processed_rewards user_id).getD [] ++
        (((lookupA svc.pending_rewards user_id).getD []).enum.map fun p =>
          { p.2 with transaction_hash := some (txs p.1) }) ∧
    (∀ r ∈ (((lookupA svc.pending_rewards user_id).getD []).enum.map fun p =>
        { p.2 with transaction_hash := some (txs p.1) }), r.transaction_hash.isSome) ∧
    (lookupA svc.pending_rewards user_id = none →
      (process_pending_rewards svc txs user_id).1 = svc ∧
      (process_pending_rewards svc txs user_id).2 = Except.ok []) := by
  by_cases hp : ((svc.pending_rewards.lookup user_id).getD []) = []
  · have hemp : (((svc.pending_rewards.lookup user_id).getD []).isEmpty) = true := by
      simp [hp]
    refine ⟨?_, ?_, ?_, ?_, ?_, ?_⟩
    · simp only [process_pending_rewards, lookupA, hemp, if_true]
      simp [hp]
    · simp only [process_pending_rewards, lookupA, hemp, if_true]
      rw [lookup_removeA, if_pos rfl]
    · intro v hv
      simp only [process_pending_rewards, lookupA, hemp, if_true]
      rw [lookup_removeA, if_neg hv]
    · simp only [process_pending_rewards, lookupA, hemp, if_true]
      simp [hp]
    · simp [lookupA, hp]
    · intro hnone
      unfold lookupA at hnone
      constructor
      · simp only [process_pending_rewards, lookupA, hemp, if_true]
        rw [removeA_of_lookup_none _ _ hnone]
      · simp only [process_pending_rewards, lookupA, hemp, if_true]
  · have hemp : (((svc.pending_rewards.lookup user_id).getD []).isEmpty) = false := by
      rw [List.isEmpty_eq_false]
      exact hp
    refine ⟨?_, ?_, ?_, ?_, ?_, ?_⟩
    · simp only [process_pending_rewards, lookupA, hemp, Bool.false_eq_true, if_false]
    · simp only [process_pending_rewards, lookupA, hemp, Bool.false_eq_true, if_false]
      rw [lookup_removeA, if_pos rfl]
    · intro v hv
      simp only [process_pending_rewards, lookupA, hemp, Bool.false_eq_true, if_false]
      rw [lookup_removeA, if_neg hv]
    · simp only [process_pending_rewards, lookupA, hemp, Bool.false_eq_true, if_false]
      rw [lookup_upsertA, if_pos rfl]
      simp
    · intro r hr
      simp only [List.mem_map] at hr
      obtain ⟨p, hp2, rfl⟩ := hr
      rfl
    · intro hnone
      unfold lookupA at hnone
      exact absurd (by simp [hnone]) hp

/-- C9 witness (Scenario D of the spec): flushing a user with no pending
rewards on a fresh ledger returns `Ok []` and leaves the ledger
untouched. -/
theorem flush_moves_pending_to_processed_witness :
    lookupA (RewardsService.new 100).pending_rewards "user" = none ∧
    (process_pending_rewards (RewardsService.new 100) (fun _ => "tx") "user").1 =
      RewardsService.new 100 ∧
    (process_pending_rewards (RewardsService.new 100) (fun _ => "tx") "user").2 =
      Except.ok [] :=
  ⟨rfl,
   ((flush_moves_pending_to_processed (RewardsService.new 100) (fun _ => "tx")
      "user").2.2.2.2.2 rfl).1,
   ((flush_moves_pending_to_processed (RewardsService.new 100) (fun _ => "tx")
      "user").2.2.2.2.2 rfl).2⟩

/-- C10: `process_content_propagation` is not atomic across its two awards.
On `almostExhaustedSvc` (pool remaining 0.15) the propagator's reward
(0.145) succeeds but the 30% creator residual (0.0435) exceeds the 0.005
left, so the call returns the pool-exhausted error while the propagator's
reward is already recorded and the pool already decremented; the creator
gets nothing. -/
theorem propagation_partial_mutation :
    (process_content_propagation almostExhaustedSvc 0 "rid1" "rid2" "propagator" "cid"
        almostExhaustedData).2 =
      Except.error "Daily reward pool exhausted" ∧
    ((process_content_propagation almostExhaustedSvc 0 "rid1" "rid2" "propagator" "cid"
        almostExhaustedData).1.rewards_engine.pending_rewards.map
      (fun p => (p.1, p.2.map (fun r => r.amount)))) = [("propagator", [29/200])] ∧
    (process_content_propagation almostExhaustedSvc 0 "rid1" "rid2" "propagator" "cid"
        almostExhaustedData).1.rewards_engine.current_pool_remaining = 1/200 ∧
    almostExhaustedSvc.rewards_engine.current_pool_remaining = 3/20 ∧
    lookupA (process_content_propagation almostExhaustedSvc 0 "rid1" "rid2" "propagator" "cid"
        almostExhaustedData).1.rewards_engine.pending_rewards "creator" = none := by
  have hne : ¬("creator" = "propagator") := by decide
  have hbeq : ("creator" == "propagator") = false := by decide
  refine ⟨?_, ?_, ?_, ?_, ?_⟩ <;>
    norm_num [hne, hbeq, process_content_propagation, almostExhaustedSvc, almostExhaustedData,
      calculate_echo_index, weighted_score, EchoEngineConfig.default, lookupA,
      calculate_propagation_reward, RewardMultiplier.default, RewardsService.new,
      award_reward, update_user_stats, upsertA, setA, newUserStats,
      calculate_reward_velocity, calculate_user_multiplier, List.lookup_cons]


/-- Characterization of the leaderboard's rank-update loop: folding the
per-entry `get_mut`-style rank writes over an index/entry list with
distinct keys rewrites each stats entry whose key occurs in the list with
the corresponding 1-based index, and leaves the others alone. -/
theorem foldl_setRank_eq_map (L : List (Nat × (String × UserRewardStats)))
    (stats : List (String × UserRewardStats))
    (hL : (L.map fun p => p.2.1).Nodup) :
    L.foldl (fun st p => setA p.2.1 (setRank (p.1 + 1)) st) stats =
      stats.map fun q =>
        match L.find? (fun p => p.2.1 == q.1) with
        | some p => (q.1, setRank (p.1 + 1) q.2)
        | none => q := by
  induction L generalizing stats with
  | nil =>
    simp only [List.foldl_nil, List.find?_nil]
    exact (List.map_id' stats).symm ▸ rfl
  | cons a T ih =>
    simp only [List.map_cons, List.nodup_cons] at hL
    obtain ⟨hnotin, hTnd⟩ := hL
    simp only [List.foldl_cons]
    rw [ih _ hTnd]
    unfold setA
    rw [List.map_map]
    apply List.map_congr_left
    intro q hq
    by_cases hk : q.1 = a.2.1
    · have hfind : (a :: T).find? (fun p => p.2.1 == q.1) = some a :=
        List.find?_cons_of_pos _ (by simp [hk])
    
      have hnone : T.find? (fun p => p.2.1 == q.1) = none := by
        rw [List.find?_eq_none]
        intro x hx hpred
        exact hnotin (by
          rw [show a.2.1 = x.2.1 from by
            have := of_decide_eq_true (by simpa [beq_eq_decide] using hpred)
            rw [this, hk]]
          exact List.mem_map_of_mem _ hx)
      simp only [Function.comp_apply, if_pos hk, hfind, hnone]
    · have hfind : (a :: T).find? (fun p => p.2.1 == q.1) =
          T.find? (fun p => p.2.1 == q.1) :=
        List.find?_cons_of_neg _ (by simp [beq_eq_decide]; exact fun he => hk he.symm)
      simp only [Function.comp_apply, if_neg hk, hfind]

/-- On a key-distinct entry list, looking every key up in the list's own
enumeration (offset `j`) yields exactly the 1-based positions
`j+1, …, j+length`. -/
theorem enumFrom_find_ranks (l : List (String × UserRewardStats)) (j : Nat)
    (h : (l.map Prod.fst).Nodup) :
    (l.map Prod.fst).map (fun k =>
        match (l.enumFrom j).find? (fun p => p.2.1 == k) with
        | some p => p.1 + 1
        | none => 0) = List.range' (j + 1) l.length := by
  induction l generalizing j with
  | nil => simp
  | cons q t ih =>
    simp only [List.map_cons, List.nodup_cons] at h
    obtain ⟨hq, htnd⟩ := h
    simp only [List.map_cons, List.enumFrom_cons, List.length_cons, List.range'_succ]
    congr 1
    · rw [List.find?_cons_of_pos _ (by simp)]
    · calc (t.map Prod.fst).map (fun k =>
            match ((j, q) :: t.enumFrom (j + 1)).find? (fun p => p.2.1 == k) with
            | some p => p.1 + 1
            | none => 0)
          = (t.map Prod.fst).map (fun k =>
            match (t.enumFrom (j + 1)).find? (fun p => p.2.1 == k) with
            | some p => p.1 + 1
            | none => 0) := by
            apply List.map_congr_left
            intro k hk
            rw [List.find?_cons_of_neg _ (by
              simp only [beq_eq_decide, decide_eq_true_eq]
              exact fun he => hq (he ▸ hk))]
        _ = List.range' (j + 1 + 1) t.length := ih (j + 1) htnd

/-- C7 counterexample: on a ledger with two users whose stored ranks are
still the initial 0, every entry of the list returned by
`calculate_leaderboard` still carries rank 0 — the entries are cloned
before the rank update writes into the live stats — so the returned list's
ranks are not the permutation 1..2 the claim requires. -/
theorem leaderboard_returned_ranks_counterexample :
    twoUserSvc.user_stats.length = 2 ∧
    (∀ p ∈ (calculate_leaderboard twoUserSvc).2, p.2.rank = 0) ∧
    ¬ (((calculate_leaderboard twoUserSvc).2.map fun p => p.2.rank).Perm [1, 2]) := by
  have h2eq : (calculate_leaderboard twoUserSvc).2 =
      twoUserSvc.user_stats.mergeSort leaderboardLE := rfl
  have hmem : ∀ p ∈ (calculate_leaderboard twoUserSvc).2, p.2.rank = 0 := by
    intro p hp
    rw [h2eq] at hp
    have hin : p ∈ twoUserSvc.user_stats :=
      (List.mergeSort_perm twoUserSvc.user_stats leaderboardLE).mem_iff.mp hp
    simp only [twoUserSvc, List.mem_cons, List.not_mem_nil, or_false] at hin
    rcases hin with h | h <;> subst h <;> rfl
  refine ⟨rfl, hmem, ?_⟩
  intro hperm
  have h1 : (1 : Nat) ∈ (calculate_leaderboard twoUserSvc).2.map fun p => p.2.rank :=
    hperm.mem_iff.mpr (by simp)
  simp only [List.mem_map] at h1
  obtain ⟨p, hp, hrank⟩ := h1
  rw [hmem p hp] at hrank
  exact Nat.noConfusion hrank

/-- C7 amended: after `calculate_leaderboard` runs over stats with distinct
user keys, (1) the returned list is a permutation of the pre-call entries,
(2) it is sorted by total earned descending, (3) the ranks stored in the
per-user stats form a permutation of 1..N, and (4) those stored ranks are
consistent with descending total earned (a strictly smaller rank never has
a smaller total).  The ranks carried by the returned entries, however, are
the pre-call ranks, not 1..N (see the counterexample). -/
theorem leaderboard_ranks_amended (svc : RewardsService)
    (hnd : (svc.user_stats.map Prod.fst).Nodup) :
    ((calculate_leaderboard svc).2).Perm svc.user_stats ∧
    ((calculate_leaderboard svc).2).Pairwise
      (fun a b => b.2.total_earned ≤ a.2.total_earned) ∧
    (((calculate_leaderboard svc).1.user_stats.map fun p => p.2.rank).Perm
      (List.range' 1 svc.user_stats.length)) ∧
    (∀ p ∈ (calculate_leaderboard svc).1.user_stats,
      ∀ q ∈ (calculate_leaderboard svc).1.user_stats,
        p.2.rank < q.2.rank → q.2.total_earned ≤ p.2.total_earned) := by
  have h2eq : (calculate_leaderboard svc).2 =
      svc.user_stats.mergeSort leaderboardLE := rfl
  have h1eq : (calculate_leaderboard svc).1.user_stats =
      (svc.user_stats.mergeSort leaderboardLE).enum.foldl
        (fun st p => setA p.2.1 (setRank (p.1 + 1)) st) svc.user_stats := rfl
  have hperm : (svc.user_stats.mergeSort leaderboardLE).Perm svc.user_stats :=
    List.mergeSort_perm svc.user_stats leaderboardLE
  have hkeysperm :
      ((svc.user_stats.mergeSort leaderboardLE).map Prod.fst).Perm
        (svc.user_stats.map Prod.fst) := hperm.map _
  have hsortednd : ((svc.user_stats.mergeSort leaderboardLE).map Prod.fst).Nodup :=
    hkeysperm.nodup_iff.mpr hnd
  have hLkeys :
      ((svc.user_stats.mergeSort leaderboardLE).enum.map fun p => p.2.1) =
        (svc.user_stats.mergeSort leaderboardLE).map Prod.fst := by
    rw [show (fun p : Nat × (String × UserRewardStats) => p.2.1) =
      (Prod.fst ∘ Prod.snd) from rfl]
    rw [← List.map_map, List.enum_map_snd]
  have hchar := foldl_setRank_eq_map
    (svc.user_stats.mergeSort leaderboardLE).enum svc.user_stats
    (by rw [hLkeys]; exact hsortednd)
  -- every stats key is found in the sorted enumeration
  have hpres : ∀ q ∈ svc.user_stats,
      ((svc.user_stats.mergeSort leaderboardLE).enum.find?
        (fun p => p.2.1 == q.1)).isSome := by
    intro q hq
    rw [List.find?_isSome]
    have hk : q.1 ∈ (svc.user_stats.mergeSort leaderboardLE).map Prod.fst :=
      hkeysperm.mem_iff.mpr (List.mem_map_of_mem _ hq)
    obtain ⟨e, he, hek⟩ := List.mem_map.mp hk
    obtain ⟨i, hi⟩ := List.mem_iff_get.mp he
    refine ⟨(i.1, e), ?_, by simp [hek]⟩
    rw [List.mk_mem_enum_iff_getElem?]
    simp [← hi, List.getElem?_eq_getElem i.2]
  -- characterize each entry of the updated stats through the sorted list
  have hentry : ∀ p ∈ (calculate_leaderboard svc).1.user_stats,
      ∃ q0 ∈ svc.user_stats, ∃ i : Nat,
        ((svc.user_stats.mergeSort leaderboardLE)[i]? = some q0) ∧
        p = (q0.1, setRank (i + 1) q0.2) := by
    intro p hp
    rw [h1eq, hchar] at hp
    obtain ⟨q0, hq0, hpe⟩ := List.mem_map.mp hp
    obtain ⟨e, hee⟩ := Option.isSome_iff_exists.mp (hpres q0 hq0)
    have hkey : e.2.1 = q0.1 := by
      have := List.find?_some hee
      simpa [beq_eq_decide] using this
    have hmem := List.mem_of_find?_eq_some hee
    rw [List.mk_mem_enum_iff_getElem?] at hmem
    obtain ⟨hlt, hgete⟩ := List.getElem?_eq_some_iff.mp hmem
    have he2mem : e.2 ∈ svc.user_stats := by
      refine hperm.mem_iff.mp ?_
      rw [← hgete]
      exact List.getElem_mem hlt
    have he2eq : e.2 = q0 :=
      List.inj_on_of_nodup_map hnd he2mem hq0 hkey
    refine ⟨q0, hq0, e.1, ?_, ?_⟩
    · rw [List.getElem?_eq_some_iff]
      exact ⟨hlt, by rw [hgete, he2eq]⟩
    · rw [← hpe, hee]
  refine ⟨?_, ?_, ?_, ?_⟩
  · rw [h2eq]; exact hperm
  · rw [h2eq]
    have hpw := @List.sorted_mergeSort _ leaderboardLE
      (fun a b c hab hbc => by
        simp only [leaderboardLE, decide_eq_true_eq] at hab hbc ⊢
        exact le_trans hbc hab)
      (fun a b => by
        simp only [leaderboardLE]
        rcases le_total b.2.total_earned a.2.total_earned with h | h <;> simp [h])
      svc.user_stats
    exact hpw.imp fun h => of_decide_eq_true h
  · rw [h1eq, hchar, List.map_map]
    have hmc : svc.user_stats.map
        ((fun p : String × UserRewardStats => p.2.rank) ∘ fun q =>
          match (svc.user_stats.mergeSort leaderboardLE).enum.find?
              (fun p => p.2.1 == q.1) with
          | some p => (q.1, setRank (p.1 + 1) q.2)
          | none => q) =
        (svc.user_stats.map Prod.fst).map (fun k =>
          match (svc.user_stats.mergeSort leaderboardLE).enum.find?
              (fun p => p.2.1 == k) with
          | some p => p.1 + 1
          | none => 0) := by
      rw [List.map_map]
      apply List.map_congr_left
      intro q hq
      obtain ⟨e, hee⟩ := Option.isSome_iff_exists.mp (hpres q hq)
      simp only [Function.comp_apply, hee]
      rfl
    rw [hmc]
    have htail := enumFrom_find_ranks (svc.user_stats.mergeSort leaderboardLE) 0 hsortednd
    rw [List.enum_eq_enumFrom]
    calc ((svc.user_stats.map Prod.fst).map fun k =>
          match ((svc.user_stats.mergeSort leaderboardLE).enumFrom 0).find?
              (fun p => p.2.1 == k) with
          | some p => p.1 + 1
          | none => 0)
        ≈ (((svc.user_stats.mergeSort leaderboardLE).map Prod.fst).map fun k =>
          match ((svc.user_stats.mergeSort leaderboardLE).enumFrom 0).find?
              (fun p => p.2.1 == k) with
          | some p => p.1 + 1
          | none => 0) := hkeysperm.symm.map _
      _ = List.range' (0 + 1) (svc.user_stats.mergeSort leaderboardLE).length := by
          rw [← htail]
      _ = List.range' 1 svc.user_stats.length := by
          rw [Nat.zero_add, List.length_mergeSort]
  · intro p hp q hq hrank
    obtain ⟨p0, hp0, ip, hgp, hpe⟩ := hentry p hp
    obtain ⟨q0, hq0, iq, hgq, hqe⟩ := hentry q hq
    subst hpe hqe
    simp only [setRank] at hrank ⊢
    have hij : ip < iq := by omega
    obtain ⟨hpl, hpg⟩ := List.getElem?_eq_some_iff.mp hgp
    obtain ⟨hql, hqg⟩ := List.getElem?_eq_some_iff.mp hgq
    have hpw := @List.sorted_mergeSort _ leaderboardLE
      (fun a b c hab hbc => by
        simp only [leaderboardLE, decide_eq_true_eq] at hab hbc ⊢
        exact le_trans hbc hab)
      (fun a b => by
        simp only [leaderboardLE]
        rcases le_total b.2.total_earned a.2.total_earned with h | h <;> simp [h])
      svc.user_stats
    have := List.pairwise_iff_getElem.mp hpw ip iq hpl hql hij
    rw [hpg, hqg] at this
    simpa [leaderboardLE] using this

/-- C7 witness: the amended theorem applied to the concrete two-user
ledger. -/
theorem leaderboard_ranks_amended_witness :
    (twoUserSvc.user_stats.map Prod.fst).Nodup ∧
    (((calculate_leaderboard twoUserSvc).1.user_stats.map fun p => p.2.rank).Perm
      (List.range' 1 twoUserSvc.user_stats.length)) :=
  ⟨by decide, (leaderboard_ranks_amended twoUserSvc (by decide)).2.2.1⟩

end EchoLayer
